import Mathlib

/-!
Verification of the QGIS workflow-documentation plugin (RO-Crate export).

The definitions below are a shallow embedding of the Python sources under
`plugin/Plugin/`: pure string manipulation is translated to functions on
`String`/`List Char`, Python exceptions are modelled with `Except Unit`,
Python dictionaries with insertion-ordered association lists, and the
mutable graph/crate objects with explicit state records.  Each definition
cites the Python function it embeds.  The file is organised as one block
of definitions followed by one block of theorems.
-/

namespace QWD

/-! ## Definitions -/

/-! ### Generic Python-style string helpers -/

/-- A character kept by the sanitizer `re.sub(r"[^A-Za-z0-9]", "", ...)`
(`layer.py` line 29, `process.py` line 34, `graph_tab.py` line 300):
ASCII letters and digits only. -/
def isAsciiAlnum (c : Char) : Bool :=
  (('A' ≤ c && c ≤ 'Z') || ('a' ≤ c && c ≤ 'z') || ('0' ≤ c && c ≤ '9'))

/-- `re.sub(r"[^A-Za-z0-9]", "", s)`: strip all non-alphanumeric characters. -/
def clean_name_of (s : String) : String :=
  ⟨s.data.filter isAsciiAlnum⟩

/-- Whitespace characters stripped by Python `str.strip()` (ASCII core set). -/
def isPySpaceChar (c : Char) : Bool :=
  c = ' ' || c = '\t' || c = '\n' || c = '\r' || c = '\x0b' || c = '\x0c'

/-- Python `s.strip()`: remove leading and trailing whitespace. -/
def py_strip (s : String) : String :=
  ⟨((s.data.dropWhile isPySpaceChar).reverse.dropWhile isPySpaceChar).reverse⟩

/-- If `pat` is a literal prefix of `l`, return the remainder after it. -/
def dropPre? : List Char → List Char → Option (List Char)
  | [], l => some l
  | _ :: _, [] => none
  | p :: ps, c :: cs => if p = c then dropPre? ps cs else none

/-- Case-insensitive variant of `dropPre?` (for `re.IGNORECASE` matching). -/
def dropPreCI? : List Char → List Char → Option (List Char)
  | [], l => some l
  | _ :: _, [] => none
  | p :: ps, c :: cs => if p.toLower = c.toLower then dropPreCI? ps cs else none

/-- Leftmost occurrence of the literal `pat` inside `l`, returned as the
text before it and the text after it (the semantics of Python's substring
search used by `in` and `str.split`). -/
def firstOccur (pat : List Char) : List Char → Option (List Char × List Char)
  | [] => (dropPre? pat []).map (fun rest => ([], rest))
  | c :: tl =>
    match dropPre? pat (c :: tl) with
    | some rest => some ([], rest)
    | none => (firstOccur pat tl).map (fun ba => (c :: ba.1, ba.2))

/-- Python's substring containment test `pat in l`. -/
def containsSub (pat l : List Char) : Bool :=
  (firstOccur pat l).isSome

/-- Fuel-driven worker for Python `str.split(sep)` with a non-empty
separator: split at each leftmost occurrence and continue after it. -/
def splitOnFuel (pat : List Char) : Nat → List Char → List (List Char)
  | 0, l => [l]
  | fuel + 1, l =>
    match firstOccur pat l with
    | none => [l]
    | some (b, a) =>
      if a.length < l.length then b :: splitOnFuel pat fuel a else [l]

/-- Python `l.split(pat)` for a non-empty separator `pat`. -/
def pySplit (pat l : List Char) : List (List Char) :=
  splitOnFuel pat l.length l

/-! ### Layer identifiers and session-level uniqueness (graph_tab.py, layer.py) -/

/-- The identifier a `Layer` derives from its name:
`self.id = f"./{self.clean_name}"` with
`self.clean_name = re.sub(r"[^A-Za-z0-9]", "", layer.name())`
(`layer.py` lines 29 and 40). -/
def layer_id_of_name (name : String) : String :=
  "./" ++ clean_name_of name

/-- The availability filter of `GraphTab.open_add_layer_dialog`
(`graph_tab.py` line 128): a project layer is offered for documentation iff
`qgs_layer.name() not in self.documented_layers`, where
`self.documented_layers` is keyed by the raw layer name
(`self.documented_layers[layer_obj.name] = layer_obj`, line 179). -/
def layer_addition_allowed (documented_layers : List String) (name : String) : Bool :=
  !(documented_layers.contains name)

/-! ### Layer assembly into the crate (layer.py, export_tab.py) -/

/-- Python `pathlib.Path(s).suffix` for POSIX paths: take the last
non-empty `/`-separated component and return its extension (`name[i:]`
when the last `.` sits at an index `i` with `0 < i < len(name) - 1`,
otherwise the empty string). -/
def path_suffix (s : String) : String :=
  let comps := (pySplit ['/'] s.data).filter (fun c => !c.isEmpty)
  let nm := comps.getLast?.getD []
  match nm.reverse.findIdx? (fun c => c = '.') with
  | none => ""
  | some r =>
    let i := nm.length - 1 - r
    if 0 < i ∧ i < nm.length - 1 then ⟨nm.drop i⟩ else ""

/-- A documented layer, as far as `Layer.add_to_rocrate` consumes it:
`__init__` (`layer.py` lines 17-40) stores the raw name, the visibility
flag and the source locator. -/
structure Layer where
  name : String
  visible : Bool
  source : String
deriving DecidableEq

/-- `self.clean_name = re.sub(r"[^A-Za-z0-9]", "", layer.name())`
(`layer.py` line 29). -/
def Layer.clean_name (l : Layer) : String := clean_name_of l.name

/-- `self.id = f"./{self.clean_name}"` (`layer.py` line 40). -/
def Layer.id (l : Layer) : String := "./" ++ l.clean_name

/-- The `@id` of the geometry entry,
`f"{self.id}/geometry{Path(self.source).suffix}"` (`layer.py` line 225). -/
def Layer.geometry_id (l : Layer) : String :=
  Layer.id l ++ "/geometry" ++ path_suffix l.source

/-- The `@id` of the symbology entry, `f"{self.id}/symbology.qml"`
(`layer.py` line 187). -/
def Layer.symbology_id (l : Layer) : String :=
  Layer.id l ++ "/symbology.qml"

/-- The crate state `Layer.add_to_rocrate` manipulates: the root dataset's
`hasPart` identifier list and, per layer dataset, its own `hasPart`
identifier list. -/
structure Crate where
  root_hasPart : List String
  layer_datasets : List (String × List String)
deriving DecidableEq

/-- `Layer.add_to_rocrate` (`layer.py` lines 239-281).  The rocrate
library's `ROCrate.add` appends every added data entity (the layer dataset,
the symbology file when visible, the geometry file) to the root dataset's
`hasPart`; the method then sets the layer dataset's own `hasPart` to its
sub-resources and replaces the root `hasPart` with a copy filtered by
`part["@id"] not in ids_to_remove`, where `ids_to_remove` is the geometry
id plus, when visible, the symbology id. -/
def Layer.add_to_rocrate (l : Layer) (c : Crate) : Crate :=
  let with_adds := c.root_hasPart ++ [Layer.id l]
      ++ (if l.visible then [l.symbology_id] else []) ++ [l.geometry_id]
  let ds_parts := if l.visible then [l.symbology_id, l.geometry_id] else [l.geometry_id]
  let ids_to_remove := if l.visible then [l.geometry_id, l.symbology_id] else [l.geometry_id]
  { root_hasPart := with_adds.filter (fun part => !(ids_to_remove.contains part)),
    layer_datasets := c.layer_datasets ++ [(Layer.id l, ds_parts)] }

/-- The layer loop of `ExportTab.export_rocrate` (`export_tab.py` lines
586-587) on a freshly created crate: fold `add_to_rocrate` over the
documented layers. -/
def assemble_layers (ls : List Layer) : Crate :=
  ls.foldl (fun c l => l.add_to_rocrate c) ⟨[], []⟩

/-! ### Export form validation (export_tab.py) -/

/-- The license identifiers offered by `_populate_license_dropdown`
(`export_tab.py` lines 244-268), excluding the empty placeholder entry. -/
def license_ids : List String :=
  ["CC0-1.0", "CC-BY-4.0", "CC-BY-SA-4.0", "CC-BY-NC-4.0", "CC-BY-NC-SA-4.0",
   "MIT", "Apache-2.0", "GPL-3.0", "BSD-3-Clause", "ODbL-1.0", "PDDL-1.0", "other"]

/-- All `currentData` values the license combo box can yield: the empty
placeholder (`"Select a license..."`) or one of the closed set. -/
def license_dropdown_data : List String :=
  "" :: license_ids

/-- `ExportTab.validate_form` (`export_tab.py` lines 291-303): the export
button is enabled iff the stripped title, description, export path and
author are all truthy and the license combo's current data is truthy. -/
def validate_form (title description export_path author license_id : String) : Bool :=
  !(py_strip title).isEmpty && !(py_strip description).isEmpty &&
    !(py_strip export_path).isEmpty && !(py_strip author).isEmpty &&
    !license_id.isEmpty

/-! ### Archive rewrite of the context post-processor (export_tab.py) -/

/-- The metadata member name used by `_fix_rocrate_context`. -/
def meta_filename : String := "ro-crate-metadata.json"

/-- The zip-rewrite step of `ExportTab._fix_rocrate_context`
(`export_tab.py` lines 460-476): every input member except
`ro-crate-metadata.json` is copied byte-for-byte into the fresh archive, in
order, and the modified metadata document is written last.  An archive is
modelled as an ordered list of (member name, content bytes). -/
def rewrite_zip_members (new_meta : List Nat) (archive : List (String × List Nat)) :
    List (String × List Nat) :=
  archive.filter (fun it => it.1 != meta_filename) ++ [(meta_filename, new_meta)]

/-! ### The `@context` rewrite of the context post-processor (export_tab.py) -/

/-- A JSON-LD `@context` entry: either a vocabulary URL string or a custom
term-mapping object (modelled as its key/value pairs). -/
inductive CtxItem where
  | str (s : String)
  | obj (m : List (String × String))
deriving DecidableEq

/-- The shape of the incoming `metadata["@context"]`: a single value or a
list of values. -/
inductive CtxVal where
  | single (v : CtxItem)
  | list (items : List CtxItem)
deriving DecidableEq

/-- The workflow-run vocabulary URL appended by `_fix_rocrate_context`
(`export_tab.py` line 438). -/
def workflow_run_context_url : String :=
  "https://w3id.org/ro/terms/workflow-run/context"

/-- The fixed custom term-mapping object `custom_context` of
`_fix_rocrate_context` (`export_tab.py` lines 418-433). -/
def custom_context : List (String × String) :=
  [("layerVisible", "isAccessibleForFree"),
   ("layerCrs", "spatialCoverage"),
   ("layerType", "additionalType"),
   ("layerFeatureCount", "numberOfItems"),
   ("layerGeometryType", "additionalType"),
   ("sourceTitle", "name"),
   ("sourceURL", "url"),
   ("sourceDate", "dateReceived"),
   ("sourceComment", "comment"),
   ("qgisLog", "text"),
   ("qgisParameters", "text"),
   ("qgisProcessCommand", "code"),
   ("qgisPythonCommand", "code"),
   ("qgisResults", "text")]

/-- The `@context` branch of `ExportTab._fix_rocrate_context`
(`export_tab.py` lines 436-442): if the context is already a list, append
the workflow-run URL and then the custom object; otherwise replace it by
the two-element list `[original, custom object]`. -/
def fixed_context : CtxVal → List CtxItem
  | .list items => items ++ [.str workflow_run_context_url, .obj custom_context]
  | .single v => [v, .obj custom_context]

/-! ### Instrument deduplication in the crate assembler (export_tab.py,
instrument.py, process.py) -/

/-- A documented processing step, as far as the instrument phase of
`export_rocrate` consumes it: every `Process` constructs its `Instrument`
from its `algorithm_id` (`process.py` line 37). -/
structure Process where
  algorithm_id : String
deriving DecidableEq

/-- `Instrument.__init__` (`instrument.py` line 24): `self.id = f"#{algorithm}"`. -/
def instrument_id (algorithm : String) : String := "#" ++ algorithm

/-- `Instrument.__init__` (`instrument.py` line 26): `self.name = f"QGIS: {algorithm}"`. -/
def instrument_display_name (algorithm : String) : String := "QGIS: " ++ algorithm

/-- A Python dict assignment `d[k] = v` on an insertion-ordered dictionary
modelled as an association list: replace in place if the key exists, else
append. -/
def dict_insert (k v : String) (d : List (String × String)) : List (String × String) :=
  if d.any (fun kv => kv.1 == k) then
    d.map (fun kv => if kv.1 == k then (k, v) else kv)
  else
    d ++ [(k, v)]

/-- The instrument-collection loop of `ExportTab.export_rocrate`
(`export_tab.py` lines 590-593): `instruments[process.instrument.id] =
process.instrument` for every documented step. -/
def build_instruments (ps : List Process) : List (String × String) :=
  ps.foldl
    (fun d p => dict_insert (instrument_id p.algorithm_id)
      (instrument_display_name p.algorithm_id) d)
    []

/-- The `@id`s of the software-application entities added to the crate by
the loop `for instrument in instruments.values(): instrument.add_to_rocrate`
(`export_tab.py` lines 594-595, `instrument.py` line 40). -/
def exported_instrument_ids (ps : List Process) : List String :=
  (build_instruments ps).map (fun kv => kv.1)

/-! ### Graph nodes, arrows and connection legality (graph_view.py,
layer_node.py, process_node.py, connection_arrow.py, process.py) -/

/-- A connection arrow as the node bookkeeping observes it: a distinct
object (`arrow_id` models Python object identity for `list.remove`) whose
`start_layer`/`end_layer` hold the `layer_obj.id` of the corresponding
endpoint when that endpoint is a `LayerNode` (this is what the
`hasattr(arrow.start_node, "layer_obj")` checks of
`ProcessNode._update_process_connections` read). -/
structure ArrowM where
  arrow_id : Nat
  start_layer : Option String
  end_layer : Option String
deriving DecidableEq

/-- The value of `Process.object` (`process.py` lines 38 and 56-67): the
initial empty dict, a single JSON reference `{"@id": id}`, or a list of
such references. -/
inductive ObjField where
  | empty
  | one (id : String)
  | many (ids : List String)
deriving DecidableEq

/-- `Process.set_input` (`process.py` lines 56-67): a list of two or more
inputs is stored as a list of reference objects, otherwise the expression
`inputs[0]` is evaluated — which raises `IndexError` (modelled as
`Except.error`) on an empty list — and stored as one reference object. -/
def set_input (inputs : List String) : Except Unit ObjField :=
  if inputs.length > 1 then
    .ok (.many inputs)
  else
    match inputs with
    | [] => .error ()
    | x :: _ => .ok (.one x)

/-- A `ProcessNode` (`process_node.py`): the wrapped `Process` object's
`object` and `result` fields (the initial `{}` of `result` is `none`,
`set_result` stores `{"@id": r}` as `some r`, `process.py` lines 38-39 and
69-75) together with the node's `input_arrows` and `output_arrows`. -/
structure ProcessNode where
  object : ObjField
  result : Option String
  input_arrows : List ArrowM
  output_arrows : List ArrowM
deriving DecidableEq

/-- The input layer ids `ProcessNode._update_process_connections` collects
from the incoming arrows (`process_node.py` lines 238-243). -/
def collected_input_ids (p : ProcessNode) : List String :=
  p.input_arrows.filterMap (fun a => a.start_layer)

/-- The result layer id `ProcessNode._update_process_connections` takes
from the first outgoing arrow ending at a layer (`process_node.py` lines
250-255, "Only take the first one as result"). -/
def collected_result_id (p : ProcessNode) : Option String :=
  (p.output_arrows.filterMap (fun a => a.end_layer)).head?

/-- `ProcessNode._update_process_connections` (`process_node.py` lines
235-265): recompute inputs and result from the arrows, but call
`set_input`/`set_result` only when the recomputed value is truthy (a raise
inside `set_input` propagates before the result is touched). -/
def update_process_connections (p : ProcessNode) : Except Unit ProcessNode :=
  match (if (collected_input_ids p).isEmpty then Except.ok p.object
         else set_input (collected_input_ids p)) with
  | .error e => .error e
  | .ok object' =>
    .ok { p with
          object := object',
          result :=
            match collected_result_id p with
            | some r => some r
            | none => p.result }

/-- `ProcessNode.add_input_arrow` (`process_node.py` lines 197-204). -/
def add_input_arrow (a : ArrowM) (p : ProcessNode) : Except Unit ProcessNode :=
  update_process_connections { p with input_arrows := p.input_arrows ++ [a] }

/-- `ProcessNode.remove_input_arrow` (`process_node.py` lines 206-214). -/
def remove_input_arrow (a : ArrowM) (p : ProcessNode) : Except Unit ProcessNode :=
  update_process_connections
    { p with
      input_arrows :=
        if p.input_arrows.contains a then p.input_arrows.erase a else p.input_arrows }

/-- `ProcessNode.add_output_arrow` (`process_node.py` lines 216-223). -/
def add_output_arrow (a : ArrowM) (p : ProcessNode) : Except Unit ProcessNode :=
  update_process_connections { p with output_arrows := p.output_arrows ++ [a] }

/-- `ProcessNode.remove_output_arrow` (`process_node.py` lines 225-233). -/
def remove_output_arrow (a : ArrowM) (p : ProcessNode) : Except Unit ProcessNode :=
  update_process_connections
    { p with
      output_arrows :=
        if p.output_arrows.contains a then p.output_arrows.erase a else p.output_arrows }

/-- A `LayerNode` (`layer_node.py` lines 25-48): the wrapped layer's id,
the general `connections` list and the `input_arrows` list ("only one
allowed" according to the comment on line 36). -/
structure LayerNode where
  layer_id : String
  connections : List ArrowM
  input_arrows : List ArrowM
deriving DecidableEq

/-- `LayerNode.can_accept_input_connection` (`layer_node.py` lines
236-242): `len(self.input_arrows) == 0`. -/
def can_accept_input_connection (l : LayerNode) : Bool :=
  l.input_arrows.length == 0

/-- A node of the relationship graph: a `LayerNode` or a `ProcessNode`. -/
inductive GNode where
  | layer (l : LayerNode)
  | process (p : ProcessNode)
deriving DecidableEq

/-- Python's `type(start_node) is type(end_node)` on graph nodes. -/
def same_node_type : GNode → GNode → Bool
  | .layer _, .layer _ => true
  | .process _, .process _ => true
  | _, _ => false

/-- `GraphView.is_valid_connection` (`graph_view.py` lines 146-165):
reject same-kind endpoints, reject a layer destination that cannot accept
an input, accept everything else. -/
def is_valid_connection (start_node end_node : GNode) : Bool :=
  if same_node_type start_node end_node then false
  else
    match end_node with
    | .layer l => if !(can_accept_input_connection l) then false else true
    | .process _ => true

/-- The node-registration part of `ConnectionArrow.__init__`
(`connection_arrow.py` lines 23-58): a start `LayerNode` gets the arrow
appended to `connections`, a start `ProcessNode` runs `add_output_arrow`;
an end `LayerNode` gets the arrow appended to `connections` (not to
`input_arrows`), an end `ProcessNode` runs `add_input_arrow`.  Returns the
created arrow and both updated endpoints. -/
def connection_arrow_init (start_node end_node : GNode) (arrow_id : Nat) :
    Except Unit (ArrowM × GNode × GNode) := do
  let arrow : ArrowM :=
    { arrow_id := arrow_id,
      start_layer := match start_node with | .layer l => some l.layer_id | _ => none,
      end_layer := match end_node with | .layer l => some l.layer_id | _ => none }
  let start' ←
    match start_node with
    | .layer l => pure (GNode.layer { l with connections := l.connections ++ [arrow] })
    | .process p => (add_output_arrow arrow p).map GNode.process
  let end' ←
    match end_node with
    | .layer l => pure (GNode.layer { l with connections := l.connections ++ [arrow] })
    | .process p => (add_input_arrow arrow p).map GNode.process
  return (arrow, start', end')

/-! ### WMS/WFS service-URL reconstruction (wms_layer.py, wfs_layer.py) -/

/-- A hexadecimal digit's value, if any (`urllib.parse.unquote`). -/
def hex_val? (c : Char) : Option Nat :=
  if '0' ≤ c ∧ c ≤ '9' then some (c.toNat - '0'.toNat)
  else if 'a' ≤ c ∧ c ≤ 'f' then some (c.toNat - 'a'.toNat + 10)
  else if 'A' ≤ c ∧ c ≤ 'F' then some (c.toNat - 'A'.toNat + 10)
  else none

/-- Collect a maximal leading run of `%XX` escape groups into byte values,
returning the bytes and the remaining text (`urllib.parse.unquote`
processes escape runs as byte strings before decoding). -/
def collect_pct : List Char → (List Nat × List Char)
  | '%' :: a :: b :: rest =>
    (match hex_val? a, hex_val? b with
     | some x, some y =>
       let br := collect_pct rest
       ((16 * x + y) :: br.1, br.2)
     | _, _ => ([], '%' :: a :: b :: rest))
  | l => ([], l)

/-- Fuel-driven UTF-8 decoder for the byte runs collected by
`collect_pct`; malformed sequences decode to U+FFFD, mirroring
`unquote`'s `errors="replace"` policy. -/
def utf8_decode_fuel : Nat → List Nat → List Char
  | 0, _ => []
  | _ + 1, [] => []
  | f + 1, b :: rest =>
    if b < 0x80 then Char.ofNat b :: utf8_decode_fuel f rest
    else if b < 0xC2 then '�' :: utf8_decode_fuel f rest
    else if b < 0xE0 then
      match rest with
      | b1 :: r1 =>
        if 0x80 ≤ b1 ∧ b1 < 0xC0 then
          Char.ofNat ((b - 0xC0) * 0x40 + (b1 - 0x80)) :: utf8_decode_fuel f r1
        else '�' :: utf8_decode_fuel f rest
      | [] => ['�']
    else if b < 0xF0 then
      match rest with
      | b1 :: b2 :: r2 =>
        if (0x80 ≤ b1 ∧ b1 < 0xC0) ∧ (0x80 ≤ b2 ∧ b2 < 0xC0) then
          Char.ofNat ((b - 0xE0) * 0x1000 + (b1 - 0x80) * 0x40 + (b2 - 0x80)) ::
            utf8_decode_fuel f r2
        else '�' :: utf8_decode_fuel f rest
      | _ => ['�']
    else if b < 0xF5 then
      match rest with
      | b1 :: b2 :: b3 :: r3 =>
        if ((0x80 ≤ b1 ∧ b1 < 0xC0) ∧ (0x80 ≤ b2 ∧ b2 < 0xC0)) ∧
            (0x80 ≤ b3 ∧ b3 < 0xC0) then
          Char.ofNat ((b - 0xF0) * 0x40000 + (b1 - 0x80) * 0x1000 +
              (b2 - 0x80) * 0x40 + (b3 - 0x80)) :: utf8_decode_fuel f r3
        else '�' :: utf8_decode_fuel f rest
      | _ => ['�']
    else '�' :: utf8_decode_fuel f rest

/-- UTF-8 decoding of a byte list (fuel bounded by the list length). -/
def utf8_decode (bs : List Nat) : List Char :=
  utf8_decode_fuel bs.length bs

/-- Fuel-driven worker for `urllib.parse.unquote`: replace `%XX` escape
runs by their UTF-8 decoding and leave everything else (including invalid
escapes) untouched. -/
def py_unquote_fuel : Nat → List Char → List Char
  | 0, l => l
  | _ + 1, [] => []
  | f + 1, c :: rest =>
    if c = '%' then
      match collect_pct (c :: rest) with
      | ([], _) => c :: py_unquote_fuel f rest
      | (b :: bs, r) => utf8_decode (b :: bs) ++ py_unquote_fuel f r
    else c :: py_unquote_fuel f rest

/-- `urllib.parse.unquote` (as used by `WMSLayer._get_wms_url`,
`wms_layer.py` line 83). -/
def py_unquote (l : List Char) : List Char :=
  py_unquote_fuel l.length l

/-- One loop iteration of `WMSLayer._get_wms_url` (`wms_layer.py` lines
88-94) over a `&`-separated part, threading the state
(base url, mimetype, collected params): a part containing `url=` updates
the base url to `part.split("url=")[1].rstrip("?")`; otherwise a part
containing `format=` records `part.split("=")[1]` as mimetype, and the
part is appended to the parameter list.  The list indexings are modelled
as fallible (`IndexError` is `Except.error`). -/
def wms_step (st : Option (List Char) × Option (List Char) × List (List Char))
    (part : List Char) :
    Except Unit (Option (List Char) × Option (List Char) × List (List Char)) :=
  if containsSub ("url=".data) part then
    match (pySplit ("url=".data) part).get? 1 with
    | none => .error ()
    | some v =>
      .ok (some ((v.reverse.dropWhile (fun c => c = '?')).reverse), st.2.1, st.2.2)
  else
    if containsSub ("format=".data) part then
      match (pySplit ("=".data) part).get? 1 with
      | none => .error ()
      | some m => .ok (st.1, some m, st.2.2 ++ [part])
    else
      .ok (st.1, st.2.1, st.2.2 ++ [part])

/-- `WMSLayer._get_wms_url` (`wms_layer.py` lines 70-106) applied to the
already URL-decoded source: split on `&`, run the part loop, and if a base
url was found, prepend `SERVICE=WMS` and `REQUEST=GetMap` to the collected
parameters and rebuild the query string; otherwise return `None`. -/
def get_wms_url_from (decoded : List Char) : Except Unit (Option (List Char)) :=
  match (pySplit ['&'] decoded).foldlM wms_step (none, none, []) with
  | .error e => .error e
  | .ok (none, _, _) => .ok none
  | .ok (some base, _, ps) =>
    .ok (some (base ++ ['?'] ++
      List.intercalate ['&'] (["SERVICE=WMS".data, "REQUEST=GetMap".data] ++ ps)))

/-- `WMSLayer._get_wms_url` on the raw QGIS source string
(`qgis_source = unquote(self.layer.source())`, `wms_layer.py` line 83). -/
def get_wms_url (src : String) : Except Unit (Option String) :=
  match get_wms_url_from (py_unquote src.data) with
  | .error e => .error e
  | .ok none => .ok none
  | .ok (some l) => .ok (some ⟨l⟩)

/-- One attempt of the regex `url='([^']+)'` at the current position:
match the literal `url='`, then a maximal non-empty run of non-quote
characters, then the closing quote. -/
def try_url_quote_at (l : List Char) : Option (List Char) :=
  match dropPre? ("url='".data) l with
  | none => none
  | some rest =>
    let run := rest.takeWhile (fun c => c ≠ '\'')
    if run.isEmpty then none
    else
      match rest.drop run.length with
      | '\'' :: _ => some run
      | _ => none

/-- `re.search(r"url='([^']+)'", s)` (`wfs_layer.py` line 87): leftmost
match, returning capture group 1. -/
def search_url_quote : List Char → Option (List Char)
  | [] => none
  | c :: tl =>
    match try_url_quote_at (c :: tl) with
    | some run => some run
    | none => search_url_quote tl

/-- Characters matched by the regex class `\s` (Python `re`, str
patterns). -/
def isPyRegexSpace (c : Char) : Bool :=
  c = ' ' || c = '\t' || c = '\n' || c = '\r' || c = '\x0b' || c = '\x0c' ||
  c = '\x1c' || c = '\x1d' || c = '\x1e' || c = '\x1f' || c = '\x85' || c = '\xa0' ||
  c = '\u1680' || ('\u2000' ≤ c && c ≤ '\u200a') || c = '\u2028' || c = '\u2029' ||
  c = '\u202f' || c = '\u205f' || c = '\u3000'

/-- A character matched by the value class `[^&\s']` of the WFS parameter
patterns (`wfs_layer.py` lines 98-104). -/
def is_wfs_value_char (c : Char) : Bool :=
  !(c = '&' || c = '\'' || isPyRegexSpace c)

/-- One attempt of the regex `KEY=([^&\s']+)` with `re.IGNORECASE` at the
current position. -/
def try_key_value_at (key l : List Char) : Option (List Char) :=
  match dropPreCI? (key ++ ['=']) l with
  | none => none
  | some rest =>
    let run := rest.takeWhile is_wfs_value_char
    if run.isEmpty then none else some run

/-- `re.search(KEY + "=([^&\s']+)", s, re.IGNORECASE)` (`wfs_layer.py`
lines 107-112): leftmost match, returning capture group 1. -/
def search_key_value (key : List Char) : List Char → Option (List Char)
  | [] => none
  | c :: tl =>
    match try_key_value_at key (c :: tl) with
    | some run => some run
    | none => search_key_value key tl

/-- The uppercase hexadecimal digit for a value below 16
(`urllib.parse.quote`). -/
def hex_digit (n : Nat) : Char :=
  if n < 10 then Char.ofNat ('0'.toNat + n) else Char.ofNat ('A'.toNat + (n - 10))

/-- A character `urllib.parse.quote_plus` leaves unescaped. -/
def is_quote_safe (c : Char) : Bool :=
  isAsciiAlnum c || c = '_' || c = '.' || c = '-' || c = '~'

/-- UTF-8 encoding of one character (`urllib.parse.quote_plus` encodes the
UTF-8 bytes of non-safe characters). -/
def utf8_bytes (c : Char) : List Nat :=
  let n := c.toNat
  if n < 0x80 then [n]
  else if n < 0x800 then [0xC0 + n / 0x40, 0x80 + n % 0x40]
  else if n < 0x10000 then
    [0xE0 + n / 0x1000, 0x80 + (n / 0x40) % 0x40, 0x80 + n % 0x40]
  else
    [0xF0 + n / 0x40000, 0x80 + (n / 0x1000) % 0x40, 0x80 + (n / 0x40) % 0x40,
     0x80 + n % 0x40]

/-- `urllib.parse.quote_plus` on one character. -/
def quote_plus_char (c : Char) : List Char :=
  if is_quote_safe c then [c]
  else if c = ' ' then ['+']
  else ((utf8_bytes c).map (fun b => ['%', hex_digit (b / 16), hex_digit (b % 16)])).flatten

/-- `urllib.parse.quote_plus` on a string. -/
def quote_plus (s : List Char) : List Char :=
  (s.map quote_plus_char).flatten

/-- `urllib.parse.urlencode` on an insertion-ordered parameter mapping
(`wfs_layer.py` line 115). -/
def urlencode (ps : List (List Char × List Char)) : List Char :=
  List.intercalate ['&'] (ps.map (fun kv => quote_plus kv.1 ++ ['='] ++ quote_plus kv.2))

/-- `WFSLayer._get_wfs_url` (`wfs_layer.py` lines 71-116): extract the
base url from `url='...'` (returning `None` when absent), strip everything
after `?`, seed `SERVICE=WFS` and `REQUEST=GetFeature`, then extract
`VERSION`, `TYPENAME`, `MAXFEATURES`, `EXCEPTIONS` and `OUTPUTFORMAT`
case-insensitively in this (dict-insertion) order; the `OUTPUTFORMAT`
branch evaluates `match.group(1).split("=")[1]` for the mimetype — an
`IndexError` (modelled as `Except.error`) when the captured value contains
no `=` — and finally the params are `urlencode`d onto the base url. -/
def get_wfs_url (src : String) : Except Unit (Option String) :=
  let l := src.data
  match search_url_quote l with
  | none => .ok none
  | some cap =>
    let base := (pySplit ['?'] cap).headD []
    let add_plain := fun (key : List Char) (ps : List (List Char × List Char)) =>
      match search_key_value key l with
      | none => ps
      | some v => ps ++ [(key, v)]
    let ps4 :=
      add_plain ("EXCEPTIONS".data)
        (add_plain ("MAXFEATURES".data)
          (add_plain ("TYPENAME".data)
            (add_plain ("VERSION".data)
              [("SERVICE".data, "WFS".data), ("REQUEST".data, "GetFeature".data)])))
    match search_key_value ("OUTPUTFORMAT".data) l with
    | none => .ok (some ⟨base ++ ['?'] ++ urlencode ps4⟩)
    | some v =>
      match (pySplit ['='] v).get? 1 with
      | none => .error ()
      | some _ =>
        .ok (some ⟨base ++ ['?'] ++ urlencode (ps4 ++ [("OUTPUTFORMAT".data, v)])⟩)

/-! ## Theorems -/

/-! ### Lemmas about the string helpers -/

theorem dropPre?_eq_some {pat l rest : List Char}
    (h : dropPre? pat l = some rest) : l = pat ++ rest := by
  induction pat generalizing l with
  | nil => simp [dropPre?] at h; simpa using h
  | cons p ps ih =>
    cases l with
    | nil => simp [dropPre?] at h
    | cons c cs =>
      by_cases hpc : p = c
      · subst hpc
        simp only [dropPre?, if_pos rfl] at h
        simpa using ih h
      · simp [dropPre?, hpc] at h

theorem dropPre?_isSome_of_pre {pat l : List Char}
    (h : pat <+: l) : (dropPre? pat l).isSome := by
  induction pat generalizing l with
  | nil => simp [dropPre?]
  | cons p ps ih =>
    cases l with
    | nil => simp at h
    | cons c cs =>
      obtain ⟨t, ht⟩ := h
      simp only [List.cons_append, List.cons.injEq] at ht
      obtain ⟨rfl, ht⟩ := ht
      simpa [dropPre?] using ih ⟨t, ht⟩

theorem firstOccur_eq_some {pat l b a : List Char}
    (h : firstOccur pat l = some (b, a)) : l = b ++ pat ++ a := by
  induction l generalizing b a with
  | nil =>
    simp only [firstOccur, Option.map_eq_some'] at h
    obtain ⟨rest, hrest, hba⟩ := h
    obtain ⟨rfl, rfl⟩ : b = [] ∧ a = rest := by
      constructor <;> { injection hba with h1 h2; simp_all }
    simpa using dropPre?_eq_some hrest
  | cons c tl ih =>
    simp only [firstOccur] at h
    cases hdp : dropPre? pat (c :: tl) with
    | some rest =>
      rw [hdp] at h
      injection h with h'
      obtain ⟨rfl, rfl⟩ : b = [] ∧ a = rest := by
        constructor <;> { injection h' with h1 h2; simp_all }
      simpa using dropPre?_eq_some hdp
    | none =>
      rw [hdp] at h
      simp only [Option.map_eq_some'] at h
      obtain ⟨⟨b', a'⟩, hfo, hba⟩ := h
      obtain ⟨rfl, rfl⟩ : b = c :: b' ∧ a = a' := by
        constructor <;> { injection hba with h1 h2; simp_all }
      have := ih hfo
      simp [this]

theorem option_isSome_map {α β : Type} (o : Option α) (f : α → β) :
    (o.map f).isSome = o.isSome := by
  cases o <;> simp

theorem firstOccur_isSome_of_infix {pat l : List Char}
    (h : pat <:+: l) : (firstOccur pat l).isSome := by
  obtain ⟨s, t, hst⟩ := h
  induction s generalizing l with
  | nil =>
    have hpre : pat <+: l := ⟨t, by simpa using hst⟩
    have hds := dropPre?_isSome_of_pre hpre
    cases l with
    | nil =>
      simp only [firstOccur, option_isSome_map]
      exact hds
    | cons c tl =>
      simp only [firstOccur]
      cases hdp : dropPre? pat (c :: tl) with
      | some rest => simp
      | none => rw [hdp] at hds; simp at hds
  | cons c s' ih =>
    subst hst
    have htail := ih (l := s' ++ pat ++ t) rfl
    simp only [List.cons_append, firstOccur]
    cases hdp : dropPre? pat (c :: (s' ++ pat ++ t)) with
    | some rest => simp
    | none => simpa [option_isSome_map] using htail

theorem containsSub_iff_infix {pat l : List Char} :
    containsSub pat l = true ↔ pat <:+: l := by
  constructor
  · intro h
    unfold containsSub at h
    cases hfo : firstOccur pat l with
    | none => rw [hfo] at h; simp at h
    | some ba =>
      obtain ⟨b, a⟩ := ba
      have := firstOccur_eq_some hfo
      exact ⟨b, a, this.symm⟩
  · intro h
    unfold containsSub
    simpa using firstOccur_isSome_of_infix h

theorem splitOnFuel_ne_nil (pat : List Char) (fuel : Nat) (l : List Char) :
    splitOnFuel pat fuel l ≠ [] := by
  cases fuel with
  | zero => simp [splitOnFuel]
  | succ f =>
    simp only [splitOnFuel]
    cases hfo : firstOccur pat l with
    | none => simp
    | some ba =>
      obtain ⟨b, a⟩ := ba
      by_cases hlt : a.length < l.length <;> simp [hlt]

theorem firstOccur_tail_lt {pat l b a : List Char} (hpat : pat ≠ [])
    (h : firstOccur pat l = some (b, a)) : a.length < l.length := by
  have hl := firstOccur_eq_some h
  subst hl
  have : 0 < pat.length := List.length_pos.mpr hpat
  simp [List.length_append]
  omega

theorem pySplit_length_ge_two {pat l : List Char} (hpat : pat ≠ [])
    (h : containsSub pat l = true) : 2 ≤ (pySplit pat l).length := by
  unfold containsSub at h
  cases hfo : firstOccur pat l with
  | none => rw [hfo] at h; simp at h
  | some ba =>
    obtain ⟨b, a⟩ := ba
    have hlt := firstOccur_tail_lt hpat hfo
    have hlen : 1 ≤ l.length := by omega
    unfold pySplit
    cases hl : l.length with
    | zero => omega
    | succ n =>
      simp only [splitOnFuel, hfo]
      simp only [if_pos hlt, List.length_cons]
      have := splitOnFuel_ne_nil pat n a
      have : 0 < (splitOnFuel pat n a).length := List.length_pos.mpr this
      omega

theorem splitOnFuel_mem_infix {pat : List Char} {fuel : Nat} {l x : List Char}
    (h : x ∈ splitOnFuel pat fuel l) : x <:+: l := by
  induction fuel generalizing l with
  | zero =>
    simp [splitOnFuel] at h
    exact h ▸ List.infix_refl x
  | succ f ih =>
    cases hfo : firstOccur pat l with
    | none =>
      simp only [splitOnFuel, hfo] at h
      simp at h
      exact h ▸ List.infix_refl x
    | some ba =>
      obtain ⟨b, a⟩ := ba
      simp only [splitOnFuel, hfo] at h
      by_cases hlt : a.length < l.length
      · rw [if_pos hlt] at h
        have hl := firstOccur_eq_some hfo
        rcases List.mem_cons.mp h with rfl | hmem
        · exact ⟨[], pat ++ a, by simp [hl]⟩
        · have hxa : x <:+: a := ih hmem
          have haL : a <:+: l := ⟨b ++ pat, [], by simp [hl]⟩
          exact hxa.trans haL
      · rw [if_neg hlt] at h
        simp at h
        exact h ▸ List.infix_refl x

theorem pySplit_mem_infix {pat l x : List Char}
    (h : x ∈ pySplit pat l) : x <:+: l :=
  splitOnFuel_mem_infix h

/-! ### C3: identifier uniqueness within one export session -/

/-- C3 counterexample: with `"Roads!"` already documented, a layer named
`"Roads?"` is still offered for addition even though its sanitized name and
derived identifier coincide with the documented layer's. -/
theorem c3_clean_name_collision_counterexample :
    layer_addition_allowed ["Roads!"] "Roads?" = true ∧
    clean_name_of "Roads?" = clean_name_of "Roads!" ∧
    layer_id_of_name "Roads?" = layer_id_of_name "Roads!" := by
  refine ⟨by decide, by decide, by decide⟩

/-- C3 (amended): adding a layer is refused exactly when its raw
(unsanitized) name equals the name of an already-documented layer; the
sanitized name plays no role in the check. -/
theorem c3_raw_name_uniqueness (documented_layers : List String) (name : String) :
    layer_addition_allowed documented_layers name = false ↔ name ∈ documented_layers := by
  simp [layer_addition_allowed]

/-! ### C1: the root `hasPart` never lists a layer's sub-resources -/

theorem slash_not_mem_clean_name (s : String) :
    '/' ∉ (clean_name_of s).data := by
  intro h
  have h2 : isAsciiAlnum '/' = true := (List.mem_filter.mp h).2
  exact absurd h2 (by decide)

theorem geometry_id_shape (l : Layer) :
    ∃ m, l.geometry_id = "./" ++ m ∧ '/' ∈ m.data := by
  refine ⟨l.clean_name ++ ("/geometry" ++ path_suffix l.source), ?_, ?_⟩
  · rw [Layer.geometry_id, Layer.id, String.append_assoc, String.append_assoc]
  · rw [String.data_append]
    refine List.mem_append.mpr (Or.inr ?_)
    rw [String.data_append]
    exact List.mem_append.mpr (Or.inl (by decide))

theorem symbology_id_shape (l : Layer) :
    ∃ m, l.symbology_id = "./" ++ m ∧ '/' ∈ m.data := by
  refine ⟨l.clean_name ++ "/symbology.qml", ?_, ?_⟩
  · rw [Layer.symbology_id, Layer.id, String.append_assoc]
  · rw [String.data_append]
    exact List.mem_append.mpr (Or.inr (by decide))

theorem add_to_rocrate_invariant (l : Layer) (c : Crate)
    (hroot : ∀ x ∈ c.root_hasPart, ∃ n, x = "./" ++ n ∧ '/' ∉ n.data)
    (hparts : ∀ d ∈ c.layer_datasets, ∀ p ∈ d.2, ∃ m, p = "./" ++ m ∧ '/' ∈ m.data) :
    (∀ x ∈ (l.add_to_rocrate c).root_hasPart, ∃ n, x = "./" ++ n ∧ '/' ∉ n.data) ∧
    (∀ d ∈ (l.add_to_rocrate c).layer_datasets, ∀ p ∈ d.2,
      ∃ m, p = "./" ++ m ∧ '/' ∈ m.data) := by
  constructor
  · intro x hx
    simp only [Layer.add_to_rocrate] at hx
    by_cases hv : l.visible
    · simp only [if_pos hv] at hx
      obtain ⟨hmem, hpred⟩ := List.mem_filter.mp hx
      have hnotin : x ∉ [l.geometry_id, l.symbology_id] := by
        simpa using hpred
      rcases List.mem_append.mp hmem with h1 | hgeomx
      · rcases List.mem_append.mp h1 with h2 | hsymx
        · rcases List.mem_append.mp h2 with hold | hid
          · exact hroot x hold
          · simp only [List.mem_singleton] at hid
            exact ⟨l.clean_name, hid, slash_not_mem_clean_name l.name⟩
        · simp only [List.mem_singleton] at hsymx
          exact (hnotin (by simp [hsymx])).elim
      · simp only [List.mem_singleton] at hgeomx
        exact (hnotin (by simp [hgeomx])).elim
    · simp only [if_neg hv] at hx
      obtain ⟨hmem, hpred⟩ := List.mem_filter.mp hx
      have hnotin : x ∉ [l.geometry_id] := by
        simpa using hpred
      rcases List.mem_append.mp hmem with h1 | hgeomx
      · rcases List.mem_append.mp h1 with h2 | hsymx
        · rcases List.mem_append.mp h2 with hold | hid
          · exact hroot x hold
          · simp only [List.mem_singleton] at hid
            exact ⟨l.clean_name, hid, slash_not_mem_clean_name l.name⟩
        · simp at hsymx
      · simp only [List.mem_singleton] at hgeomx
        exact (hnotin (by simp [hgeomx])).elim
  · intro d hd p hp
    simp only [Layer.add_to_rocrate] at hd
    rcases List.mem_append.mp hd with hold | hnew
    · exact hparts d hold p hp
    · simp only [List.mem_singleton] at hnew
      rw [hnew] at hp
      by_cases hv : l.visible
      · simp only [if_pos hv] at hp
        rcases List.mem_cons.mp hp with rfl | hp'
        · exact symbology_id_shape l
        · simp only [List.mem_singleton] at hp'
          exact hp' ▸ geometry_id_shape l
      · simp only [if_neg hv] at hp
        simp only [List.mem_singleton] at hp
        exact hp ▸ geometry_id_shape l

theorem assemble_layers_invariant_aux (ls : List Layer) (c : Crate)
    (hroot : ∀ x ∈ c.root_hasPart, ∃ n, x = "./" ++ n ∧ '/' ∉ n.data)
    (hparts : ∀ d ∈ c.layer_datasets, ∀ p ∈ d.2, ∃ m, p = "./" ++ m ∧ '/' ∈ m.data) :
    (∀ x ∈ (ls.foldl (fun c l => l.add_to_rocrate c) c).root_hasPart,
      ∃ n, x = "./" ++ n ∧ '/' ∉ n.data) ∧
    (∀ d ∈ (ls.foldl (fun c l => l.add_to_rocrate c) c).layer_datasets, ∀ p ∈ d.2,
      ∃ m, p = "./" ++ m ∧ '/' ∈ m.data) := by
  induction ls generalizing c with
  | nil => exact ⟨hroot, hparts⟩
  | cons l ls ih =>
    obtain ⟨hroot', hparts'⟩ := add_to_rocrate_invariant l c hroot hparts
    rw [List.foldl_cons]
    exact ih (l.add_to_rocrate c) hroot' hparts'

/-- C1: after assembling any list of layers into a fresh crate, no
identifier listed in any layer dataset's own `hasPart` also appears in the
root dataset's `hasPart`: each layer's geometry entry (and symbology entry
when visible) is removed from the root list, and the entries later adds
put there can never coincide with a layer's sub-resource identifiers. -/
theorem c1_root_hasPart_disjoint (ls : List Layer) :
    ∀ d ∈ (assemble_layers ls).layer_datasets, ∀ p ∈ d.2,
      p ∉ (assemble_layers ls).root_hasPart := by
  obtain ⟨hroot, hparts⟩ :=
    assemble_layers_invariant_aux ls ⟨[], []⟩ (by simp) (by simp)
  intro d hd p hp hmem
  obtain ⟨m, hm, hms⟩ := hparts d hd p hp
  obtain ⟨n, hn, hns⟩ := hroot p hmem
  have heq : ("./" ++ n : String) = "./" ++ m := by rw [← hn, ← hm]
  have hdata := congrArg String.data heq
  rw [String.data_append, String.data_append] at hdata
  have hnm : n.data = m.data := List.append_cancel_left hdata
  exact hns (hnm ▸ hms)

/-- C1 witness: the disjointness theorem applied to one concrete visible
layer whose symbology entry is nested under the layer dataset. -/
theorem c1_root_hasPart_disjoint_witness :
    "./Roads1/symbology.qml" ∉
      (assemble_layers [⟨"Roads 1", true, "/tmp/roads.shp"⟩]).root_hasPart :=
  c1_root_hasPart_disjoint [⟨"Roads 1", true, "/tmp/roads.shp"⟩]
    ("./Roads1", ["./Roads1/symbology.qml", "./Roads1/geometry.shp"]) (by decide)
    "./Roads1/symbology.qml" (by decide)

/-! ### C9: export form validation -/

/-- C9 counterexample: with a valid license and non-empty author, title and
description but an empty export path, the export button stays disabled,
refuting "enabled iff license selected and author/title/description
non-empty". -/
theorem c9_export_path_counterexample :
    validate_form "T" "D" "" "Author" "MIT" = false ∧
    "MIT" ∈ license_ids ∧
    py_strip "T" ≠ "" ∧ py_strip "D" ≠ "" ∧ py_strip "Author" ≠ "" := by
  refine ⟨by decide, by decide, by decide, by decide, by decide⟩

/-- C9 (amended): for any data the license combo box can hold, the export
action is enabled iff the license is one of the closed set and the title,
description, export path and author are all non-empty after stripping. -/
theorem c9_validate_form_iff (title description export_path author license_id : String)
    (hl : license_id ∈ license_dropdown_data) :
    validate_form title description export_path author license_id = true ↔
      (py_strip title ≠ "" ∧ py_strip description ≠ "" ∧ py_strip export_path ≠ "" ∧
        py_strip author ≠ "" ∧ license_id ∈ license_ids) := by
  have hids : ∀ x ∈ license_ids, x ≠ "" := by decide
  have hlic : ¬license_id.isEmpty = true ↔ license_id ∈ license_ids := by
    rcases List.mem_cons.mp hl with rfl | hmem
    · decide
    · constructor
      · intro _; exact hmem
      · intro _
        simpa [String.isEmpty_iff] using hids _ hmem
  constructor
  · intro h
    simp only [validate_form, Bool.and_eq_true, Bool.not_eq_true'] at h
    obtain ⟨⟨⟨⟨h1, h2⟩, h3⟩, h4⟩, h5⟩ := h
    refine ⟨?_, ?_, ?_, ?_, hlic.mp (by simp [h5])⟩ <;>
      simp [← String.isEmpty_iff, *]
  · rintro ⟨h1, h2, h3, h4, h5⟩
    have h5' : ¬license_id.isEmpty = true := hlic.mpr h5
    simp only [validate_form, Bool.and_eq_true, Bool.not_eq_true']
    refine ⟨⟨⟨⟨?_, ?_⟩, ?_⟩, ?_⟩, ?_⟩ <;>
      simp_all [← String.isEmpty_iff]

/-- C9 witness: the amended equivalence applied at a concrete filled form. -/
theorem c9_validate_form_iff_witness :
    validate_form "T" "D" "/tmp/out" "Author" "MIT" = true :=
  (c9_validate_form_iff "T" "D" "/tmp/out" "Author" "MIT" (by decide)).mpr
    ⟨by decide, by decide, by decide, by decide, by decide⟩

/-! ### C7: the archive rewrite touches only the metadata member -/

/-- C7: the archive rewrite touches only `ro-crate-metadata.json`: any other
member name resolves to the same bytes before and after the rewrite. -/
theorem c7_rewrite_preserves_other_members
    (archive : List (String × List Nat)) (new_meta : List Nat) (n : String)
    (h : n ≠ meta_filename) :
    (rewrite_zip_members new_meta archive).lookup n = archive.lookup n := by
  induction archive with
  | nil =>
    simp only [rewrite_zip_members, List.filter_nil, List.nil_append]
    have hne : (n == meta_filename) = false := by simpa using h
    simp [List.lookup, hne]
  | cons kv t ih =>
    obtain ⟨k, v⟩ := kv
    by_cases hk : k = meta_filename
    · subst hk
      have hne : (n == meta_filename) = false := by simpa using h
      simp only [rewrite_zip_members, List.filter_cons] at ih ⊢
      simp only [bne_self_eq_false, Bool.false_eq_true, if_false]
      rw [ih]
      simp [List.lookup, hne]
    · have hbne : (k != meta_filename) = true := by simpa using hk
      simp only [rewrite_zip_members, List.filter_cons, hbne, if_true] at ih ⊢
      by_cases hkn : k = n
      · subst hkn
        simp [List.lookup]
      · have : (n == k) = false := by simpa using fun he => hkn he.symm
        simp only [List.cons_append, List.lookup, this]
        exact ih

/-- C7 witness: the preservation theorem applied to a concrete two-member
archive. -/
theorem c7_rewrite_preserves_other_members_witness :
    (rewrite_zip_members [9, 9] [("Roads/geometry.shp", [1, 2]), ("ro-crate-metadata.json", [3])]).lookup
        "Roads/geometry.shp" =
      [("Roads/geometry.shp", [1, 2]), ("ro-crate-metadata.json", [3])].lookup
        "Roads/geometry.shp" :=
  c7_rewrite_preserves_other_members
    [("Roads/geometry.shp", [1, 2]), ("ro-crate-metadata.json", [3])] [9, 9]
    "Roads/geometry.shp" (by decide)

/-! ### C6: the `@context` rewrite -/

/-- C6 counterexample: when the original `@context` is the single RO-Crate
1.1 vocabulary string (the shape the rocrate library emits), the rewritten
context does not contain the workflow-run vocabulary URL. -/
theorem c6_single_context_counterexample :
    CtxItem.str workflow_run_context_url ∉
      fixed_context (.single (.str "https://w3id.org/ro/crate/1.1/context")) := by
  decide

/-- C6 (amended): the custom term-mapping object is always appended, but the
workflow-run vocabulary URL is appended only when the original `@context`
was already a list; a single-valued context becomes exactly
`[original, custom object]`, without the workflow-run URL. -/
theorem c6_fixed_context_shape :
    (∀ items, fixed_context (.list items) =
        items ++ [.str workflow_run_context_url, .obj custom_context]) ∧
    (∀ v, fixed_context (.single v) = [v, .obj custom_context] ∧
      (v ≠ .str workflow_run_context_url →
        CtxItem.str workflow_run_context_url ∉ fixed_context (.single v))) := by
  refine ⟨fun items => rfl, fun v => ⟨rfl, fun hv => ?_⟩⟩
  intro hmem
  simp only [fixed_context, List.mem_cons, List.not_mem_nil, or_false] at hmem
  rcases hmem with h | h
  · exact hv h.symm
  · exact CtxItem.noConfusion h

/-- C6 witness: the amended shape theorem applied at a concrete
single-valued context. -/
theorem c6_fixed_context_shape_witness :
    CtxItem.str workflow_run_context_url ∉
      fixed_context (.single (.str "wfrun-placeholder")) :=
  (c6_fixed_context_shape.2 (.str "wfrun-placeholder")).2 (by decide)

/-! ### C5: instrument deduplication -/

theorem keys_dict_insert (k v : String) (d : List (String × String)) :
    (dict_insert k v d).map (fun kv => kv.1) =
      if k ∈ d.map (fun kv => kv.1) then d.map (fun kv => kv.1)
      else d.map (fun kv => kv.1) ++ [k] := by
  by_cases hmem : k ∈ d.map (fun kv => kv.1)
  · have hany : d.any (fun kv => kv.1 == k) = true := by
      simp only [List.any_eq_true, beq_iff_eq]
      obtain ⟨kv, hkv, hk⟩ := List.mem_map.mp hmem
      exact ⟨kv, hkv, hk⟩
    simp only [dict_insert, hany, if_true, if_pos hmem, List.map_map]
    refine List.map_congr_left fun kv _ => ?_
    by_cases hk : kv.1 = k
    · simp [Function.comp, hk]
    · simp [Function.comp, hk]
  · have hany : d.any (fun kv => kv.1 == k) = false := by
      simp only [List.any_eq_false, beq_iff_eq]
      intro kv hkv hk
      exact hmem (List.mem_map.mpr ⟨kv, hkv, hk⟩)
    simp [dict_insert, hany, if_neg hmem]

theorem build_instruments_aux (ps : List Process) (d : List (String × String))
    (hd : (d.map (fun kv => kv.1)).Nodup) :
    ((ps.foldl
        (fun d p => dict_insert (instrument_id p.algorithm_id)
          (instrument_display_name p.algorithm_id) d)
        d).map (fun kv => kv.1)).Nodup ∧
    ∀ i, i ∈ (ps.foldl
        (fun d p => dict_insert (instrument_id p.algorithm_id)
          (instrument_display_name p.algorithm_id) d)
        d).map (fun kv => kv.1) ↔
      i ∈ d.map (fun kv => kv.1) ∨ ∃ p ∈ ps, instrument_id p.algorithm_id = i := by
  induction ps generalizing d with
  | nil => simpa using hd
  | cons p ps ih =>
    have hkeys := keys_dict_insert (instrument_id p.algorithm_id)
      (instrument_display_name p.algorithm_id) d
    have hd' : ((dict_insert (instrument_id p.algorithm_id)
        (instrument_display_name p.algorithm_id) d).map (fun kv => kv.1)).Nodup := by
      by_cases hmem : instrument_id p.algorithm_id ∈ d.map (fun kv => kv.1)
      · rw [hkeys, if_pos hmem]; exact hd
      · rw [hkeys, if_neg hmem]
        refine List.Nodup.append hd (by simp) ?_
        intro x hx hx'
        simp only [List.mem_singleton] at hx'
        exact hmem (hx' ▸ hx)
    obtain ⟨hnodup, hiff⟩ := ih (dict_insert (instrument_id p.algorithm_id)
      (instrument_display_name p.algorithm_id) d) hd'
    rw [List.foldl_cons]
    refine ⟨hnodup, fun i => ?_⟩
    rw [hiff i, hkeys]
    by_cases hmem : instrument_id p.algorithm_id ∈ d.map (fun kv => kv.1)
    · rw [if_pos hmem]
      constructor
      · rintro (h | ⟨q, hq, hqi⟩)
        · exact Or.inl h
        · exact Or.inr ⟨q, List.mem_cons_of_mem p hq, hqi⟩
      · rintro (h | ⟨q, hq, hqi⟩)
        · exact Or.inl h
        · rcases List.mem_cons.mp hq with rfl | hq'
          · exact Or.inl (hqi ▸ hmem)
          · exact Or.inr ⟨q, hq', hqi⟩
    · rw [if_neg hmem]
      constructor
      · rintro (h | ⟨q, hq, hqi⟩)
        · rcases List.mem_append.mp h with h' | h'
          · exact Or.inl h'
          · simp only [List.mem_singleton] at h'
            exact Or.inr ⟨p, List.mem_cons_self p ps, h'.symm⟩
        · exact Or.inr ⟨q, List.mem_cons_of_mem p hq, hqi⟩
      · rintro (h | ⟨q, hq, hqi⟩)
        · exact Or.inl (List.mem_append.mpr (Or.inl h))
        · rcases List.mem_cons.mp hq with rfl | hq'
          · exact Or.inl (List.mem_append.mpr (Or.inr (by simp [hqi])))
          · exact Or.inr ⟨q, hq', hqi⟩

/-- C5: after assembly, the software-application entity list contains each
distinct instrument identifier exactly once (no duplicates), and an
identifier appears iff some documented ProcessingStep's algorithm yields
it — even when multiple steps share the same algorithm identifier. -/
theorem c5_instrument_dedup (ps : List Process) :
    (exported_instrument_ids ps).Nodup ∧
    ∀ i, i ∈ exported_instrument_ids ps ↔
      ∃ p ∈ ps, instrument_id p.algorithm_id = i := by
  obtain ⟨hnodup, hiff⟩ := build_instruments_aux ps [] (by simp)
  refine ⟨hnodup, fun i => ?_⟩
  rw [exported_instrument_ids, build_instruments, hiff i]
  simp

/-! ### C2, C4, C10: graph connections and process bookkeeping -/

theorem set_input_of_ne_nil {inputs : List String} (h : inputs ≠ []) :
    ∃ o, set_input inputs = .ok o := by
  match inputs with
  | [] => exact absurd rfl h
  | x :: rest =>
    unfold set_input
    by_cases hlen : (x :: rest).length > 1
    · refine ⟨.many (x :: rest), ?_⟩
      rw [if_pos hlen]
    · refine ⟨.one x, ?_⟩
      rw [if_neg hlen]

/-- Specification of `update_process_connections`: it never raises, keeps
the arrow lists, records recomputed inputs/result when they are non-empty
and keeps the stale values otherwise. -/
theorem update_process_connections_spec (p : ProcessNode) :
    ∃ p', update_process_connections p = .ok p' ∧
      p'.input_arrows = p.input_arrows ∧
      p'.output_arrows = p.output_arrows ∧
      (collected_input_ids p = [] → p'.object = p.object) ∧
      (collected_input_ids p ≠ [] → set_input (collected_input_ids p) = .ok p'.object) ∧
      (collected_result_id p = none → p'.result = p.result) ∧
      (∀ r, collected_result_id p = some r → p'.result = some r) := by
  cases hobj : (if (collected_input_ids p).isEmpty then Except.ok p.object
      else set_input (collected_input_ids p)) with
  | error e =>
    exfalso
    by_cases hin : (collected_input_ids p).isEmpty
    · rw [if_pos hin] at hobj
      exact Except.noConfusion hobj
    · rw [if_neg hin] at hobj
      obtain ⟨o, ho⟩ :=
        @set_input_of_ne_nil (collected_input_ids p)
          (fun hnil => hin (by simp [hnil]))
      rw [ho] at hobj
      exact Except.noConfusion hobj
  | ok o =>
    refine ⟨{ p with
        object := o,
        result :=
          match collected_result_id p with
          | some r => some r
          | none => p.result }, ?_, rfl, rfl, ?_, ?_, ?_, ?_⟩
    · rw [update_process_connections, hobj]
    · intro hin
      have hemp : (collected_input_ids p).isEmpty = true := by simp [hin]
      rw [if_pos hemp] at hobj
      injection hobj with h
      exact h.symm
    · intro hin
      have hemp : ¬(collected_input_ids p).isEmpty = true :=
        fun hemp => hin (by simpa using hemp)
      rw [if_neg hemp] at hobj
      exact hobj
    · intro hres
      show (match collected_result_id p with
            | some r => some r
            | none => p.result) = p.result
      rw [hres]
    · intro r hres
      show (match collected_result_id p with
            | some r => some r
            | none => p.result) = some r
      rw [hres]

/-- C10: `set_input` stores a single reference object for a one-element
list and a list of reference objects for two or more inputs — so the
`object` field is not always a list — and it fails (`IndexError` on
`inputs[0]`) on an empty list; `_update_process_connections` guards every
call with a non-emptiness check and therefore never raises. -/
theorem c10_set_input_shape :
    (∀ i, set_input [i] = .ok (.one i)) ∧
    (∀ ids : List String, 2 ≤ ids.length → set_input ids = .ok (.many ids)) ∧
    set_input ([] : List String) = .error () ∧
    (∀ p : ProcessNode, ∃ p', update_process_connections p = .ok p') := by
  refine ⟨fun i => rfl, fun ids hids => ?_, rfl, fun p => ?_⟩
  · have : ids.length > 1 := hids
    simp [set_input, this]
  · obtain ⟨p', hp', -⟩ := update_process_connections_spec p
    exact ⟨p', hp'⟩

/-- C10 witness: the shape theorem applied at a two-element input list. -/
theorem c10_set_input_shape_witness :
    set_input ["./Roads", "./Rivers"] = .ok (.many ["./Roads", "./Rivers"]) :=
  c10_set_input_shape.2.1 ["./Roads", "./Rivers"] (by decide)

/-- C4 counterexample: a ProcessNode whose only outgoing connection is
removed keeps its previously recorded result `{"@id": "./A"}` (instead of
having no recorded result), and one whose last incoming connection is
removed keeps its previously recorded input object (instead of having no
recorded inputs). -/
theorem c4_stale_state_counterexample :
    remove_output_arrow ⟨0, none, some "./A"⟩
        ⟨.one "./In", some "./A", [⟨1, some "./In", none⟩], [⟨0, none, some "./A"⟩]⟩ =
      .ok ⟨.one "./In", some "./A", [⟨1, some "./In", none⟩], []⟩ ∧
    remove_input_arrow ⟨1, some "./In", none⟩
        ⟨.one "./In", some "./A", [⟨1, some "./In", none⟩], [⟨0, none, some "./A"⟩]⟩ =
      .ok ⟨.one "./In", some "./A", [], [⟨0, none, some "./A"⟩]⟩ := by
  exact ⟨rfl, rfl⟩

/-- C4 (amended): disconnecting reruns the recomputation, which overwrites
the recorded inputs/result only with non-empty recomputed values: the
recorded result equals the recomputed one when a layer-bound outgoing
connection remains and is left unchanged (stale) otherwise, and likewise
for the recorded inputs. -/
theorem c4_disconnect_recompute (p : ProcessNode) (a : ArrowM) :
    (∃ p', remove_output_arrow a p = .ok p' ∧
      p'.input_arrows = p.input_arrows ∧
      (∀ r, collected_result_id p' = some r → p'.result = some r) ∧
      (collected_result_id p' = none → p'.result = p.result) ∧
      (collected_input_ids p' = [] → p'.object = p.object) ∧
      (collected_input_ids p' ≠ [] → set_input (collected_input_ids p') = .ok p'.object)) ∧
    (∃ q', remove_input_arrow a p = .ok q' ∧
      q'.output_arrows = p.output_arrows ∧
      (∀ r, collected_result_id q' = some r → q'.result = some r) ∧
      (collected_result_id q' = none → q'.result = p.result) ∧
      (collected_input_ids q' = [] → q'.object = p.object) ∧
      (collected_input_ids q' ≠ [] → set_input (collected_input_ids q') = .ok q'.object)) := by
  constructor
  · obtain ⟨p', hp', hin, hout, hobj₀, hobj₁, hres₀, hres₁⟩ :=
      update_process_connections_spec
        { p with output_arrows :=
            if p.output_arrows.contains a then p.output_arrows.erase a
            else p.output_arrows }
    refine ⟨p', hp', hin, ?_, ?_, ?_, ?_⟩
    · intro r hr
      apply hres₁
      rw [← hr]
      unfold collected_result_id
      rw [hout]
    · intro h
      apply hres₀
      unfold collected_result_id at h ⊢
      rw [← hout]
      exact h
    · intro h
      apply hobj₀
      unfold collected_input_ids at h ⊢
      rw [← hin]
      exact h
    · intro h
      have h' : collected_input_ids
          { p with output_arrows :=
              if p.output_arrows.contains a then p.output_arrows.erase a
              else p.output_arrows } ≠ [] := by
        unfold collected_input_ids at h ⊢
        rw [← hin]
        exact h
      have := hobj₁ h'
      unfold collected_input_ids at this ⊢
      rw [← hin] at this
      exact this
  · obtain ⟨q', hq', hin, hout, hobj₀, hobj₁, hres₀, hres₁⟩ :=
      update_process_connections_spec
        { p with input_arrows :=
            if p.input_arrows.contains a then p.input_arrows.erase a
            else p.input_arrows }
    refine ⟨q', hq', hout, ?_, ?_, ?_, ?_⟩
    · intro r hr
      apply hres₁
      rw [← hr]
      unfold collected_result_id
      rw [hout]
    · intro h
      apply hres₀
      unfold collected_result_id at h ⊢
      rw [← hout]
      exact h
    · intro h
      apply hobj₀
      unfold collected_input_ids at h ⊢
      rw [← hin]
      exact h
    · intro h
      have h' : collected_input_ids
          { p with input_arrows :=
              if p.input_arrows.contains a then p.input_arrows.erase a
              else p.input_arrows } ≠ [] := by
        unfold collected_input_ids at h ⊢
        rw [← hin]
        exact h
      have := hobj₁ h'
      unfold collected_input_ids at this ⊢
      rw [← hin] at this
      exact this

/-- C4 witness: the amended disconnect specification instantiated at a
concrete node and arrow. -/
theorem c4_disconnect_recompute_witness :
    (∃ p', remove_output_arrow (⟨0, none, some "./A"⟩ : ArrowM)
        (⟨.one "./In", some "./A", [⟨1, some "./In", none⟩], [⟨0, none, some "./A"⟩]⟩ :
          ProcessNode) = .ok p' ∧
      p'.input_arrows = [⟨1, some "./In", none⟩] ∧
      (∀ r, collected_result_id p' = some r → p'.result = some r) ∧
      (collected_result_id p' = none → p'.result = some "./A") ∧
      (collected_input_ids p' = [] → p'.object = .one "./In") ∧
      (collected_input_ids p' ≠ [] → set_input (collected_input_ids p') = .ok p'.object)) := by
  have h := (c4_disconnect_recompute
    ⟨.one "./In", some "./A", [⟨1, some "./In", none⟩], [⟨0, none, some "./A"⟩]⟩
    ⟨0, none, some "./A"⟩).1
  exact h

/-- C2: connections between two layers or two processes are always
rejected and a layer-to-process connection is always accepted; but after a
process-to-layer connection is created through `ConnectionArrow`, the
layer's `input_arrows` list is still empty (the arrow lands in
`connections`), so a second incoming connection to the same layer is
accepted by `is_valid_connection` — contradicting the documented
one-incoming-connection rule. -/
theorem c2_connection_legality :
    (∀ l1 l2 : LayerNode, is_valid_connection (.layer l1) (.layer l2) = false) ∧
    (∀ q1 q2 : ProcessNode, is_valid_connection (.process q1) (.process q2) = false) ∧
    (∀ (l : LayerNode) (q : ProcessNode),
      is_valid_connection (.layer l) (.process q) = true) ∧
    (is_valid_connection (.process ⟨.empty, none, [], []⟩)
        (.layer ⟨"./Roads", [], []⟩) = true ∧
      connection_arrow_init (.process ⟨.empty, none, [], []⟩)
          (.layer ⟨"./Roads", [], []⟩) 0 =
        .ok (⟨0, none, some "./Roads"⟩,
          .process ⟨.empty, some "./Roads", [], [⟨0, none, some "./Roads"⟩]⟩,
          .layer ⟨"./Roads", [⟨0, none, some "./Roads"⟩], []⟩) ∧
      is_valid_connection (.process ⟨.empty, none, [], []⟩)
        (.layer ⟨"./Roads", [⟨0, none, some "./Roads"⟩], []⟩) = true) := by
  exact ⟨fun l1 l2 => rfl, fun q1 q2 => rfl, fun l q => rfl, rfl, rfl, rfl⟩

/-! ### C8: WMS/WFS service-URL reconstruction -/

theorem wms_step_total (st : Option (List Char) × Option (List Char) × List (List Char))
    (part : List Char) : ∃ st', wms_step st part = .ok st' := by
  unfold wms_step
  by_cases hurl : containsSub ("url=".data) part = true
  · rw [if_pos hurl]
    have hlen := pySplit_length_ge_two (by decide) hurl
    cases hget : (pySplit ("url=".data) part).get? 1 with
    | none =>
      exfalso
      have := List.get?_eq_none.mp hget
      omega
    | some v => exact ⟨_, rfl⟩
  · rw [if_neg hurl]
    by_cases hfmt : containsSub ("format=".data) part = true
    · rw [if_pos hfmt]
      have h1 : ("=".data) <:+: ("format=".data) := ⟨"format".data, [], by decide⟩
      have h2 : ("format=".data) <:+: part := containsSub_iff_infix.mp hfmt
      have heq : containsSub ("=".data) part = true :=
        containsSub_iff_infix.mpr (h1.trans h2)
      have hlen := pySplit_length_ge_two (by decide) heq
      cases hget : (pySplit ("=".data) part).get? 1 with
      | none =>
        exfalso
        have := List.get?_eq_none.mp hget
        omega
      | some m => exact ⟨_, rfl⟩
    · rw [if_neg hfmt]
      exact ⟨_, rfl⟩

theorem foldlM_wms_total (parts : List (List Char)) :
    ∀ st, ∃ st', parts.foldlM wms_step st = .ok st' := by
  induction parts with
  | nil => intro st; exact ⟨st, rfl⟩
  | cons p ps ih =>
    intro st
    obtain ⟨st1, h1⟩ := wms_step_total st p
    obtain ⟨st2, h2⟩ := ih st1
    refine ⟨st2, ?_⟩
    rw [List.foldlM_cons, h1]
    simpa using h2

theorem get_wms_url_total (src : String) : ∃ r, get_wms_url src = .ok r := by
  unfold get_wms_url get_wms_url_from
  obtain ⟨st, hst⟩ :=
    foldlM_wms_total (pySplit ['&'] (py_unquote src.data)) (none, none, [])
  rw [hst]
  obtain ⟨b, mt, ps⟩ := st
  cases b with
  | none => exact ⟨none, rfl⟩
  | some base => exact ⟨_, rfl⟩

/-- C8: WMS reconstruction is total (every fallible indexing is guarded by
the corresponding containment check), and a source without a parseable
`url=` token yields `None` for WFS; but WFS reconstruction raises an
`IndexError` on a source whose matched `OUTPUTFORMAT` value contains no
`=` (the mimetype extraction `match.group(1).split("=")[1]`), while a
well-formed quoted source reconstructs normally. -/
theorem c8_service_url_reconstruction :
    (∀ src : String, ∃ r, get_wms_url src = .ok r) ∧
    get_wfs_url "url='http://example.com/wfs' OUTPUTFORMAT=json" = .error () ∧
    get_wfs_url "OUTPUTFORMAT=json" = .ok none ∧
    get_wfs_url "url='http://example.com/wfs' typename='ns:roads'" =
      .ok (some "http://example.com/wfs?SERVICE=WFS&REQUEST=GetFeature") := by
  exact ⟨get_wms_url_total, rfl, rfl, rfl⟩

end QWD
